import Mathlib

/-!
Verification development for the dock-batch-updater repository.

The Python source is shallowly embedded: paragraphs are lists of run
texts (each a `List Char`, matching Python strings as sequences of code
points), documents are trees of paragraphs and (recursively nested)
tables, the filesystem is an association list from path to content, and
the thread-pool orchestration of the batch processor is made explicit
through oracle parameters (arrival order of futures, the observed state
of the shared stop flag, per-task I/O outcomes).
-/

namespace DocxBatch

/-! ## Paragraph-level replacement (src/core/docx_processor.py, `_replace_in_paragraph`) -/

/-- Python `text.find(search, start)` on code-point sequences: the least
index `i` with `start ≤ i ≤ text.length` such that `search` occurs at `i`
(for the empty `search` this is `start` itself whenever `start ≤ text.length`),
and `none` when there is no such index. -/
def findFrom (text search : List Char) (start : Nat) : Option Nat :=
  (List.range (text.length + 1)).find?
    (fun i => decide (start ≤ i) && search.isPrefixOf (text.drop i))

/-- Continuation of the run-walking loop of `_replace_in_paragraph`
(lines 234-247) once the start run has been recorded as `(si, so)`:
keep accumulating run lengths until the first run whose end bound
satisfies `end_pos ≤ run_end`, which becomes the end run. -/
def mapSpanEnd (si so ep : Nat) : List (List Char) → Nat → Nat → Option (Nat × Nat × Nat × Nat)
  | [], _, _ => none
  | r :: rest, idx, cpos =>
    if ep ≤ cpos + r.length then some (si, so, idx, ep - cpos)
    else mapSpanEnd si so ep rest (idx + 1) (cpos + r.length)

/-- The run-walking loop of `_replace_in_paragraph` (lines 228-250) while
`start_run_idx is None`: the start run is the first run with
`start_pos < run_end`; if the end bound falls inside a run before the start
is recorded the Python loop breaks with `start_run_idx is None`, which the
caller treats as no mapping (`none`). -/
def mapSpanStart (sp ep : Nat) : List (List Char) → Nat → Nat → Option (Nat × Nat × Nat × Nat)
  | [], _, _ => none
  | r :: rest, idx, cpos =>
    if sp < cpos + r.length then
      if ep ≤ cpos + r.length then some (idx, sp - cpos, idx, ep - cpos)
      else mapSpanEnd idx (sp - cpos) ep rest (idx + 1) (cpos + r.length)
    else
      if ep ≤ cpos + r.length then none
      else mapSpanStart sp ep rest (idx + 1) (cpos + r.length)

/-- Map an absolute match span `[sp, ep)` over the paragraph text back to
`(start_run_idx, start_offset, end_run_idx, end_offset)`. -/
def mapSpan (runs : List (List Char)) (sp ep : Nat) : Option (Nat × Nat × Nat × Nat) :=
  mapSpanStart sp ep runs 0 0

/-- Length of the concatenation of the first `k` runs (the `current_pos`
value of the run walk when it reaches run `k`). -/
def pL (runs : List (List Char)) (k : Nat) : Nat :=
  ((runs.take k).map List.length).sum

/-- Pointwise effect of the assignments in lines 256-265: run `si`
receives the newly built text, runs `si+1 .. ei` are set to the empty
string, every other run keeps its text.  `idx` is the index of the first
run of the remaining list. -/
def spliceAux (newStart : List Char) (si ei : Nat) : Nat → List (List Char) → List (List Char)
  | _, [] => []
  | idx, r :: rest =>
    (if idx = si then newStart
     else if si + 1 ≤ idx ∧ idx ≤ ei then []
     else r) :: spliceAux newStart si ei (idx + 1) rest

/-- One splice (lines 256-265): the start run becomes
`start.take so ++ replace ++ end.drop eo` and the runs strictly after the
start run up to and including the end run are emptied. -/
def spliceRuns (runs : List (List Char)) (si so ei eo : Nat) (rep : List Char) :
    List (List Char) :=
  spliceAux ((runs.getD si []).take so ++ rep ++ (runs.getD ei []).drop eo) si ei 0 runs

/-- One iteration of the `while True` body (lines 219-268): find the
next match at or after the cursor, map it to runs, splice.  `none` means
the body executed a `break` (no match, or the run mapping failed). -/
def replaceStep (runs : List (List Char)) (search rep : List Char) (searchStart : Nat) :
    Option (List (List Char) × Nat) :=
  match findFrom runs.flatten search searchStart with
  | none => none
  | some mi =>
    match mapSpan runs mi (mi + search.length) with
    | none => none
    | some (si, so, ei, eo) =>
      some (spliceRuns runs si so ei eo rep, mi + rep.length)

/-- The `while True` loop, fuel-indexed: `none` means the iteration
budget was exhausted before the loop broke, `some (runs, count)` means
the loop terminated with the final runs and replacement count. -/
def replaceLoop (search rep : List Char) :
    Nat → List (List Char) → Nat → Nat → Option (List (List Char) × Nat)
  | 0, _, _, _ => none
  | fuel + 1, runs, searchStart, count =>
    match replaceStep runs search rep searchStart with
    | none => some (runs, count)
    | some (runs1, ss1) => replaceLoop search rep fuel runs1 ss1 (count + 1)

/-- `_replace_in_paragraph` (lines 197-270): the guard
`if search_text not in paragraph.text: return 0`, then the match loop,
run with an iteration budget of `paragraph_text.length + 1` (shown
sufficient for nonempty `search` in `replaceInParagraph_terminates`). -/
def replaceInParagraph (runs : List (List Char)) (search rep : List Char) :
    Option (List (List Char) × Nat) :=
  if (findFrom runs.flatten search 0).isSome then
    replaceLoop search rep (runs.flatten.length + 1) runs 0 0
  else some (runs, 0)

/-! ## Document tree (paragraphs, tables, nested tables) -/

/-- A paragraph is the list of its runs; a run is its text. -/
abbrev Para := List (List Char)

/-- A table is rows of cells; a cell owns its paragraphs and its nested
tables (`docx.table`: `table.rows`, `row.cells`, `cell.paragraphs`,
`cell.tables`). -/
inductive DTable where
  | mk (rows : List (List (List Para × List DTable))) : DTable

/-- `doc.paragraphs` and `doc.tables` of a loaded document. -/
structure DocModel where
  paras : List Para
  tables : List DTable

mutual

/-- Paragraphs of a table in the order `_replace_in_table` visits them:
rows, then cells, then each cell's paragraphs followed by its nested
tables. -/
def tableParas : DTable → List Para
  | .mk rows => rowsParas rows

def rowsParas : List (List (List Para × List DTable)) → List Para
  | [] => []
  | row :: rest => cellsParas row ++ rowsParas rest

def cellsParas : List (List Para × List DTable) → List Para
  | [] => []
  | (ps, ts) :: rest => ps ++ tablesParas ts ++ cellsParas rest

def tablesParas : List DTable → List Para
  | [] => []
  | t :: rest => tableParas t ++ tablesParas rest

end

mutual

/-- `_replace_in_table` (lines 272-302): visit every row, cell, the
cell's paragraphs and then its nested tables, summing counts.  `none`
propagates a non-terminating paragraph loop. -/
def repTable (search rep : List Char) : DTable → Option (DTable × Nat)
  | .mk rows =>
    match repRows search rep rows with
    | none => none
    | some (rows1, n) => some (.mk rows1, n)

def repRows (search rep : List Char) :
    List (List (List Para × List DTable)) → Option (List (List (List Para × List DTable)) × Nat)
  | [] => some ([], 0)
  | row :: rest =>
    match repCells search rep row with
    | none => none
    | some (row1, n) =>
      match repRows search rep rest with
      | none => none
      | some (rest1, m) => some (row1 :: rest1, n + m)

def repCells (search rep : List Char) :
    List (List Para × List DTable) → Option (List (List Para × List DTable) × Nat)
  | [] => some ([], 0)
  | (ps, ts) :: rest =>
    match repParas search rep ps with
    | none => none
    | some (ps1, n) =>
      match repTables search rep ts with
      | none => none
      | some (ts1, m) =>
        match repCells search rep rest with
        | none => none
        | some (rest1, k) => some ((ps1, ts1) :: rest1, n + m + k)

def repParas (search rep : List Char) : List Para → Option (List Para × Nat)
  | [] => some ([], 0)
  | p :: rest =>
    match replaceInParagraph p search rep with
    | none => none
    | some (p1, n) =>
      match repParas search rep rest with
      | none => none
      | some (rest1, m) => some (p1 :: rest1, n + m)

def repTables (search rep : List Char) : List DTable → Option (List DTable × Nat)
  | [] => some ([], 0)
  | t :: rest =>
    match repTable search rep t with
    | none => none
    | some (t1, n) =>
      match repTables search rep rest with
      | none => none
      | some (rest1, m) => some (t1 :: rest1, n + m)

end

/-- `replace_text` (lines 128-170) on a loaded document: replace in every
top-level paragraph, then in every top-level table, summing the counts.
The progress callback is a pure observer and is not modelled. -/
def replaceTextDoc (d : DocModel) (search rep : List Char) : Option (DocModel × Nat) :=
  match repParas search rep d.paras with
  | none => none
  | some (ps, n) =>
    match repTables search rep d.tables with
    | none => none
    | some (ts, m) => some (⟨ps, ts⟩, n + m)

/-- Every paragraph of the document, in traversal order. -/
def docParas (d : DocModel) : List Para := d.paras ++ tablesParas d.tables

/-- The document's text: the concatenation of all paragraph texts. -/
def docText (d : DocModel) : List Char :=
  ((docParas d).map (fun p => p.flatten)).flatten

/-! ## Format snapshot (src/utils/format_preserver.py) -/

/-- The sparse run attributes touched by `capture_run_format` /
`apply_run_format`.  Each attribute is optional on the run itself
(`None` in python-docx when inherited).  Sizes, colors and highlight
enum members are modelled by their numeric values, the font name by a
string, boolean tri-states by `Option Bool`. -/
structure RunFormat where
  fontName : Option String
  fontSize : Option Nat
  bold : Option Bool
  italic : Option Bool
  underline : Option Bool
  colorRgb : Option Nat
  highlightColor : Option Nat
  strike : Option Bool
  subScript : Option Bool
  superScript : Option Bool
deriving DecidableEq, Repr

/-- `capture_run_format` (lines 24-67).  Fields guarded by Python
truthiness (`if run.font.name:`, `if run.font.size:`,
`if run.font.underline:`, `if run.font.highlight_color:`) are captured
only when truthy (nonempty string, nonzero number, `True`); fields
guarded by `is not None` (`bold`, `italic`, `strike`, `subscript`,
`superscript`) are captured whenever set; `color_rgb` is captured when
the rgb value is set (`RGBColor` is a nonempty-tuple subclass, hence
truthy whenever present). -/
def capture_run_format (run : RunFormat) : RunFormat where
  fontName := match run.fontName with
    | some s => if s = "" then none else some s
    | none => none
  fontSize := match run.fontSize with
    | some n => if n = 0 then none else some n
    | none => none
  bold := run.bold
  italic := run.italic
  underline := match run.underline with
    | some b => if b then some b else none
    | none => none
  colorRgb := run.colorRgb
  highlightColor := match run.highlightColor with
    | some n => if n = 0 then none else some n
    | none => none
  strike := run.strike
  subScript := run.subScript
  superScript := run.superScript

/-- `if key in format_data: run.font.attr = format_data[key]` for one
attribute. -/
def applyField (snap cur : Option α) : Option α :=
  match snap with
  | some v => some v
  | none => cur

/-- `apply_run_format` (lines 69-106): each field present in the
snapshot overwrites the run's attribute; absent fields leave the run's
attribute untouched. -/
def apply_run_format (run snap : RunFormat) : RunFormat where
  fontName := applyField snap.fontName run.fontName
  fontSize := applyField snap.fontSize run.fontSize
  bold := applyField snap.bold run.bold
  italic := applyField snap.italic run.italic
  underline := applyField snap.underline run.underline
  colorRgb := applyField snap.colorRgb run.colorRgb
  highlightColor := applyField snap.highlightColor run.highlightColor
  strike := applyField snap.strike run.strike
  subScript := applyField snap.subScript run.subScript
  superScript := applyField snap.superScript run.superScript

/-! ## Backup creation (src/core/docx_processor.py, `create_backup`)

The filesystem is an association list from path to file content.
External collaborators are parameters: `sha256hex` (hex digest of a
UTF-8 string), `abspath`, the stream `uids` of `uuid.uuid4().hex`
values drawn by the attempts, the per-attempt oracle `copyOk` (whether
`shutil.copy2` succeeds) and `collides` (whether `os.replace` raises
`FileExistsError`; on POSIX and Windows `os.replace` silently replaces
an existing regular file at the destination, so for a plain pre-existing
file this oracle is `false`). -/

abbrev FS := List (String × String)

def fsGet : FS → String → Option String
  | [], _ => none
  | (q, c) :: rest, p => if p = q then some c else fsGet rest p

def fsRemove : FS → String → FS
  | [], _ => []
  | (q, c) :: rest, p => if q = p then fsRemove rest p else (q, c) :: fsRemove rest p

def fsSet (fs : FS) (p c : String) : FS := (p, c) :: fsRemove fs p

/-- `os.path.join` for a POSIX-style directory and name. -/
def joinPath (dir name : String) : String := dir ++ "/" ++ name

/-- Python `s[:n]`: the first `n` code points of `s`. -/
def strTake (s : String) (n : Nat) : String := ⟨s.data.take n⟩

/-- Line 84: `hashlib.sha256(os.path.abspath(doc_path).encode()).hexdigest()[:6]`. -/
def fingerprint (sha256hex abspath : String → String) (srcPath : String) : String :=
  strTake (sha256hex (abspath srcPath)) 6

/-- Line 89: `f"{name}_backup_{parent_dir}_{path_hash6}_{uid8}{ext}"`. -/
def backupName (stem hint fp uid ext : String) : String :=
  stem ++ "_backup_" ++ hint ++ "_" ++ fp ++ "_" ++ uid ++ ext

/-- Line 93: `f".{backup_name}.tmp"`. -/
def tmpName (bname : String) : String := "." ++ bname ++ ".tmp"

/-- Exit states of `create_backup`: the returned path together with the
final filesystem, a propagated copy exception, or the `RuntimeError`
raised after the 50 attempts are exhausted. -/
inductive BackupOutcome where
  | success (path : String) (fs : FS)
  | copyError (fs : FS)
  | exhausted (fs : FS)
deriving DecidableEq, Repr

def BackupOutcome.fsOf : BackupOutcome → FS
  | .success _ fs => fs
  | .copyError fs => fs
  | .exhausted fs => fs

/-- Whether a successful outcome holds the source's content at the
returned path (trivially true for the other outcomes). -/
def BackupOutcome.contentOk (out : BackupOutcome) (src : String) : Bool :=
  match out with
  | .success p fs => fsGet fs p == some src
  | _ => true

/-- The `for _ in range(50)` loop of `create_backup` (lines 87-126);
`n` counts the remaining attempts (initially 50), `k` the attempt index
(used to draw `uids k`).  Each attempt: remove a stale temp file if
present, copy the source to the temp path, then `os.replace` the temp
file onto the final path.  On `FileExistsError` the temp file is removed
and the loop retries with a fresh suffix; on a copy exception the
`finally` block removes the temp file and the exception propagates; on
success the rename consumed the temp file, so the `finally` block finds
nothing to clean. -/
def createBackupLoop (backupDir stem hint fp ext srcContent : String)
    (uids : Nat → String) (copyOk collides : Nat → Bool) :
    Nat → Nat → FS → BackupOutcome
  | 0, _, fs => .exhausted fs
  | n + 1, k, fs =>
    let bname := backupName stem hint fp (strTake (uids k) 8) ext
    let tmp := joinPath backupDir (tmpName bname)
    let fin := joinPath backupDir bname
    let fs0 := fsRemove fs tmp
    if copyOk k then
      let fs1 := fsSet fs0 tmp srcContent
      if collides k then
        createBackupLoop backupDir stem hint fp ext srcContent uids copyOk collides
          n (k + 1) (fsRemove fs1 tmp)
      else
        .success fin (fsSet (fsRemove fs1 tmp) fin srcContent)
    else
      .copyError fs0

/-- `create_backup` (lines 56-126).  `stem`/`ext` come from
`os.path.splitext(os.path.basename(doc_path))` and `hint` from the
sanitised parent-directory name (lines 75-82); they are passed in as the
values those external path functions produce. -/
def create_backup (sha256hex abspath : String → String) (srcPath : String)
    (stem hint ext backupDir srcContent : String)
    (uids : Nat → String) (copyOk collides : Nat → Bool) (fs : FS) : BackupOutcome :=
  createBackupLoop backupDir stem hint (fingerprint sha256hex abspath srcPath) ext srcContent
    uids copyOk collides 50 0 fs

/-! ## Batch orchestration (src/core/batch_processor.py)

The thread pool is made explicit: `arrival` is the order in which
`as_completed` yields the futures (indices into the valid-file list, one
future per occurrence), `stopAt i` is the state of the shared stop event
observed by the aggregation loop at its `i`-th iteration, and
`envs k` packages what task `k` observes (the stop flag at task start
and the outcomes of its load / validation / backup / save calls).
The per-result and progress callbacks are pure observers and are not
modelled. -/

structure PResult where
  path : String
  success : Bool
  message : String
  replacements : Nat
  backupPath : String
deriving DecidableEq, Repr

structure TaskEnv where
  sawStop : Bool
  loadOk : Bool
  structOk : Bool
  backupRes : Option String
  reps : Nat
  saveOk : Bool

/-- `_process_single_file` (lines 163-242).  The cancelled / load /
validation failures carry no backup path; a backup exception is caught
by the outer `except` and becomes an `Error:` result (its message text
abbreviates Python's `f"Error: {str(e)}"`); a save failure still reports
the backup path; the structural-validation failure message abbreviates
`f"Invalid document: {...}"`. -/
def runTask (path : String) (doBackup : Bool) (env : TaskEnv) : PResult :=
  if env.sawStop then ⟨path, false, "Processing cancelled", 0, ""⟩
  else if !env.loadOk then ⟨path, false, "Failed to load document", 0, ""⟩
  else if !env.structOk then ⟨path, false, "Invalid document", 0, ""⟩
  else
    match (if doBackup then env.backupRes else some "") with
    | none => ⟨path, false, "Error: backup failed", 0, ""⟩
    | some bp =>
      if !env.saveOk then ⟨path, false, "Failed to save document", 0, bp⟩
      else ⟨path, true, "Successfully processed", env.reps, bp⟩

/-- The `for future in as_completed(...)` loop (lines 128-159): at each
iteration the stop event is checked first and, if set, the loop breaks,
dropping the results of every future not yet consumed; otherwise the
completed task's result is appended.  The task body catches all its own
exceptions, so `future.result()` does not raise and the surrounding
`except` branch is not exercised. -/
def aggregate (task : Nat → PResult) (stopAt : Nat → Bool) : Nat → List Nat → List PResult
  | _, [] => []
  | i, k :: rest =>
    if stopAt i then []
    else task k :: aggregate task stopAt (i + 1) rest

/-- `process_documents` (lines 70-161).  `valid p` is the conjunction of
`os.path.exists`, `os.access(..., R_OK)` and `DocxProcessor.is_docx_file`
applied by `_validate_files`, so `valid_files = paths.filter valid` and
`set(file_paths) - set(valid_files)` is the set of distinct invalid
paths (Python set iteration order is unspecified; the model uses
first-occurrence order, and the facts proved below are order
independent). -/
def process_documents (paths : List String) (valid : String → Bool) (doBackup : Bool)
    (envs : Nat → TaskEnv) (arrival : List Nat) (stopAt : Nat → Bool) : List PResult :=
  ((paths.filter (fun p => !(valid p))).dedup).map
    (fun p => (⟨p, false, "Invalid or unreadable DOCX file", 0, ""⟩ : PResult)) ++
    aggregate (fun k => runTask ((paths.filter valid).getD k "") doBackup (envs k))
      stopAt 0 arrival

/-! ## Lemmas about `findFrom` -/

theorem isPrefixOf_iff_ex : ∀ (s t : List Char), s.isPrefixOf t = true ↔ ∃ u, t = s ++ u
  | [], t => by simp [List.isPrefixOf]
  | a :: s, [] => by simp [List.isPrefixOf]
  | a :: s, b :: t => by
    simp only [List.isPrefixOf, Bool.and_eq_true, beq_iff_eq, List.cons_append,
      List.cons.injEq]
    constructor
    · rintro ⟨heq, h⟩
      obtain ⟨u, hu⟩ := (isPrefixOf_iff_ex s t).1 h
      exact ⟨u, heq.symm, hu⟩
    · rintro ⟨u, heq, hu⟩
      exact ⟨heq.symm, (isPrefixOf_iff_ex s t).2 ⟨u, hu⟩⟩

theorem findFrom_some {text search : List Char} {start mi : Nat}
    (h : findFrom text search start = some mi) :
    start ≤ mi ∧ mi + search.length ≤ text.length ∧ ∃ u, text.drop mi = search ++ u := by
  unfold findFrom at h
  have hp := List.find?_some h
  have hm := List.mem_of_find?_eq_some h
  rw [List.mem_range] at hm
  simp only [Bool.and_eq_true, decide_eq_true_eq] at hp
  obtain ⟨u, hu⟩ := (isPrefixOf_iff_ex _ _).1 hp.2
  have hl := congrArg List.length hu
  simp only [List.length_drop, List.length_append] at hl
  exact ⟨hp.1, by omega, u, hu⟩

theorem findFrom_none {text search : List Char} {start : Nat}
    (h : findFrom text search start = none) :
    ∀ i u, start ≤ i → i ≤ text.length → text.drop i = search ++ u → False := by
  intro i u hsi hil hdrop
  unfold findFrom at h
  rw [List.find?_eq_none] at h
  have := h i (by rw [List.mem_range]; omega)
  simp only [Bool.and_eq_true, decide_eq_true_eq] at this
  exact this ⟨hsi, (isPrefixOf_iff_ex _ _).2 ⟨u, hdrop⟩⟩

theorem find?_ge_range' (st : Nat) :
    ∀ (k s0 : Nat), s0 ≤ st →
      List.find? (fun i => decide (st ≤ i)) (List.range' s0 k) =
        if st < s0 + k then some st else none := by
  intro k
  induction k with
  | zero =>
    intro s0 h
    rw [show List.range' s0 0 = [] from rfl, if_neg (by omega)]
    rfl
  | succ k ih =>
    intro s0 h
    rw [List.range'_succ]
    by_cases hc : st ≤ s0
    · have heq : s0 = st := Nat.le_antisymm h hc
      rw [List.find?_cons_of_pos _ (by simpa using hc), if_pos (by omega), heq]
    · rw [List.find?_cons_of_neg _ (by simpa using hc), ih (s0 + 1) (by omega)]
      by_cases h2 : st < s0 + 1 + k
      · rw [if_pos h2, if_pos (by omega)]
      · rw [if_neg h2, if_neg (by omega)]

theorem findFrom_nil_search (text : List Char) (st : Nat) :
    findFrom text [] st = if st ≤ text.length then some st else none := by
  unfold findFrom
  rw [List.range_eq_range']
  simp only [List.isPrefixOf, Bool.and_true]
  rw [find?_ge_range' st (text.length + 1) 0 (Nat.zero_le st)]
  by_cases h : st ≤ text.length
  · rw [if_pos (by omega), if_pos h]
  · rw [if_neg (by omega), if_neg h]

/-! ## Lemmas about `mapSpan` -/

theorem pL_zero (runs : List (List Char)) : pL runs 0 = 0 := rfl

theorem pL_cons_succ (r : List Char) (rest : List (List Char)) (k : Nat) :
    pL (r :: rest) (k + 1) = r.length + pL rest k := by
  simp [pL, List.take_succ_cons]

theorem pL_flatten_take (runs : List (List Char)) (k : Nat) :
    ((runs.take k).flatten).length = pL runs k := by
  simp [pL, List.length_flatten]

theorem mapSpanEnd_spec (si so ep : Nat) :
    ∀ (rs : List (List Char)) (idx cpos si1 so1 ei eo : Nat),
      mapSpanEnd si so ep rs idx cpos = some (si1, so1, ei, eo) →
      cpos ≤ ep →
      ∃ k, si1 = si ∧ so1 = so ∧ k < rs.length ∧ ei = idx + k ∧
        cpos + pL rs k ≤ ep ∧
        eo = ep - (cpos + pL rs k) ∧
        ep ≤ cpos + pL rs k + (rs.getD k []).length := by
  intro rs
  induction rs with
  | nil => intro idx cpos si1 so1 ei eo h _; simp [mapSpanEnd] at h
  | cons r rest ih =>
    intro idx cpos si1 so1 ei eo h hce
    simp only [mapSpanEnd] at h
    by_cases hcr : ep ≤ cpos + r.length
    · rw [if_pos hcr] at h
      simp only [Option.some.injEq, Prod.mk.injEq] at h
      obtain ⟨h1, h2, h3, h4⟩ := h
      refine ⟨0, h1.symm, h2.symm, by simp, by omega, ?_, ?_⟩
      · rw [pL_zero]; omega
      · rw [pL_zero, List.getD_cons_zero]; omega
    · rw [if_neg hcr] at h
      obtain ⟨k, h1, h2, h3, h4, h5, h6, h7⟩ :=
        ih (idx + 1) (cpos + r.length) _ _ _ _ h (by omega)
      refine ⟨k + 1, h1, h2, by simpa using h3, by omega, ?_, ?_, ?_⟩
      · rw [pL_cons_succ]; omega
      · rw [pL_cons_succ]; omega
      · rw [pL_cons_succ, List.getD_cons_succ]; omega

theorem mapSpanStart_spec (sp ep : Nat) :
    ∀ (rs : List (List Char)) (idx cpos si so ei eo : Nat),
      mapSpanStart sp ep rs idx cpos = some (si, so, ei, eo) →
      cpos ≤ sp → sp ≤ ep →
      ∃ j k, si = idx + j ∧ ei = idx + j + k ∧ j + k < rs.length ∧
        cpos + pL rs j ≤ sp ∧
        so = sp - (cpos + pL rs j) ∧
        sp < cpos + pL rs j + (rs.getD j []).length ∧
        cpos + pL rs (j + k) ≤ ep ∧
        eo = ep - (cpos + pL rs (j + k)) ∧
        ep ≤ cpos + pL rs (j + k) + (rs.getD (j + k) []).length := by
  intro rs
  induction rs with
  | nil => intro idx cpos si so ei eo h _ _; simp [mapSpanStart] at h
  | cons r rest ih =>
    intro idx cpos si so ei eo h hcs hse
    simp only [mapSpanStart] at h
    by_cases hsr : sp < cpos + r.length
    · rw [if_pos hsr] at h
      by_cases her : ep ≤ cpos + r.length
      · rw [if_pos her] at h
        simp only [Option.some.injEq, Prod.mk.injEq] at h
        obtain ⟨h1, h2, h3, h4⟩ := h
        refine ⟨0, 0, by omega, by omega, by simp, ?_, ?_, ?_, ?_, ?_, ?_⟩ <;>
          simp only [Nat.add_zero, Nat.zero_add, pL_zero, List.getD_cons_zero] <;> omega
      · rw [if_neg her] at h
        obtain ⟨k, h1, h2, h3, h4, h5, h6, h7⟩ :=
          mapSpanEnd_spec idx (sp - cpos) ep rest (idx + 1) (cpos + r.length) _ _ _ _ h
            (by omega)
        refine ⟨0, k + 1, by omega, by omega, by simp only [List.length_cons]; omega,
          ?_, ?_, ?_, ?_, ?_, ?_⟩ <;>
          simp only [Nat.add_zero, Nat.zero_add, pL_zero, pL_cons_succ, List.getD_cons_zero,
            List.getD_cons_succ] <;> omega
    · rw [if_neg hsr] at h
      by_cases her : ep ≤ cpos + r.length
      · rw [if_pos her] at h; exact absurd h (by simp)
      · rw [if_neg her] at h
        obtain ⟨j, k, h1, h2, h3, h4, h5, h6, h7, h8, h9⟩ :=
          ih (idx + 1) (cpos + r.length) _ _ _ _ h (by omega) hse
        refine ⟨j + 1, k, by omega, by omega, by simp only [List.length_cons]; omega,
          ?_, ?_, ?_, ?_, ?_, ?_⟩ <;>
          simp only [show j + 1 + k = (j + k) + 1 from by omega, pL_cons_succ,
            List.getD_cons_succ] <;> omega

theorem mapSpan_spec {runs : List (List Char)} {sp ep si so ei eo : Nat}
    (h : mapSpan runs sp ep = some (si, so, ei, eo)) (hse : sp ≤ ep) :
    si ≤ ei ∧ ei < runs.length ∧
    pL runs si ≤ sp ∧ so = sp - pL runs si ∧
    sp < pL runs si + (runs.getD si []).length ∧
    pL runs ei ≤ ep ∧ eo = ep - pL runs ei ∧
    ep ≤ pL runs ei + (runs.getD ei []).length := by
  obtain ⟨j, k, h1, h2, h3, h4, h5, h6, h7, h8, h9⟩ :=
    mapSpanStart_spec sp ep runs 0 0 _ _ _ _ h (Nat.zero_le sp) hse
  subst h1; subst h2
  simp only [Nat.zero_add] at *
  exact ⟨by omega, h3, by omega, by omega, by omega, by omega, by omega, by omega⟩

/-! ## Lemmas about `spliceRuns` -/

theorem spliceAux_length (ns : List Char) (si ei : Nat) :
    ∀ (rs : List (List Char)) (idx : Nat), (spliceAux ns si ei idx rs).length = rs.length := by
  intro rs
  induction rs with
  | nil => intro idx; rfl
  | cons r rest ih => intro idx; simp [spliceAux, ih]

theorem spliceAux_getD (ns : List Char) (si ei : Nat) :
    ∀ (rs : List (List Char)) (idx k : Nat),
      (spliceAux ns si ei idx rs).getD k [] =
        if k < rs.length then
          (if idx + k = si then ns
           else if si + 1 ≤ idx + k ∧ idx + k ≤ ei then []
           else rs.getD k [])
        else [] := by
  intro rs
  induction rs with
  | nil => intro idx k; simp [spliceAux]
  | cons r rest ih =>
    intro idx k
    cases k with
    | zero =>
      simp only [spliceAux, List.getD_cons_zero, Nat.add_zero, List.length_cons,
        if_pos (Nat.succ_pos rest.length)]
    | succ k =>
      simp only [spliceAux, List.getD_cons_succ]
      rw [ih (idx + 1) k]
      have e1 : idx + 1 + k = idx + (k + 1) := by omega
      rw [e1]
      simp only [List.length_cons, Nat.succ_lt_succ_iff]

theorem spliceAux_after (ns : List Char) (si ei : Nat) :
    ∀ (rs : List (List Char)) (idx : Nat), si < idx →
      spliceAux ns si ei idx rs =
        ((rs.take (ei + 1 - idx)).map (fun _ => ([] : List Char))) ++ rs.drop (ei + 1 - idx) := by
  intro rs
  induction rs with
  | nil => intro idx _; simp [spliceAux]
  | cons r rest ih =>
    intro idx hlt
    by_cases hie : idx ≤ ei
    · have e1 : ei + 1 - idx = (ei + 1 - (idx + 1)) + 1 := by omega
      rw [e1]
      simp only [spliceAux, List.take_succ_cons, List.map_cons, List.drop_succ_cons,
        List.cons_append]
      rw [if_neg (by omega), if_pos ⟨by omega, hie⟩, ih (idx + 1) (by omega)]
    · have e1 : ei + 1 - idx = 0 := by omega
      rw [e1]
      simp only [spliceAux, List.take_zero, List.map_nil, List.drop_zero, List.nil_append]
      rw [if_neg (by omega), if_neg (by omega), ih (idx + 1) (by omega)]
      have e2 : ei + 1 - (idx + 1) = 0 := by omega
      rw [e2]
      simp

theorem spliceAux_shape (ns : List Char) (si ei : Nat) :
    ∀ (rs : List (List Char)) (idx : Nat), idx ≤ si → si ≤ ei → ei < idx + rs.length →
      spliceAux ns si ei idx rs =
        rs.take (si - idx) ++ ns ::
          (((rs.drop (si - idx + 1)).take (ei - si)).map (fun _ => ([] : List Char)) ++
            rs.drop (ei + 1 - idx)) := by
  intro rs
  induction rs with
  | nil => intro idx h1 h2 h3; simp only [List.length_nil] at h3; omega
  | cons r rest ih =>
    intro idx h1 h2 h3
    by_cases his : idx = si
    · subst his
      have e1 : idx - idx = 0 := by omega
      have e2 : ei + 1 - idx = (ei - idx) + 1 := by omega
      rw [e1, e2]
      simp only [spliceAux, Nat.zero_add, List.take_zero, List.nil_append,
        List.drop_succ_cons, List.drop_zero, List.take_succ_cons, eq_self_iff_true, if_true]
      rw [spliceAux_after ns idx ei rest (idx + 1) (by omega)]
      have e3 : ei + 1 - (idx + 1) = ei - idx := by omega
      rw [e3]
    · have hlt : idx < si := by omega
      have e1 : si - idx = (si - (idx + 1)) + 1 := by omega
      have e2 : ei + 1 - idx = (ei + 1 - (idx + 1)) + 1 := by omega
      rw [e1, e2]
      simp only [spliceAux, List.take_succ_cons, List.drop_succ_cons, List.cons_append]
      rw [if_neg his, if_neg (by omega),
        ih (idx + 1) (by omega) h2 (by simp only [List.length_cons] at h3; omega)]

theorem flatten_map_nil (l : List α) :
    (l.map (fun _ => ([] : List Char))).flatten = [] := by
  induction l with
  | nil => rfl
  | cons a l ih => simp [ih]

theorem flatten_decomp {runs : List (List Char)} {i : Nat} (h : i < runs.length) :
    runs.flatten = (runs.take i).flatten ++ ((runs.getD i []) ++ (runs.drop (i + 1)).flatten) := by
  conv_lhs => rw [← List.take_append_drop i runs]
  rw [List.flatten_append, List.drop_eq_getElem_cons h, List.flatten_cons,
    List.getD_eq_getElem runs [] h]

theorem spliceRuns_flatten {runs : List (List Char)} {sp ep si so ei eo : Nat}
    (rep : List Char)
    (h : mapSpan runs sp ep = some (si, so, ei, eo)) (hse : sp ≤ ep) :
    (spliceRuns runs si so ei eo rep).flatten =
      runs.flatten.take sp ++ rep ++ runs.flatten.drop ep := by
  obtain ⟨hij, hei, hps, hso, hsb, hpe, heo, heb⟩ := mapSpan_spec h hse
  have hsi : si < runs.length := by omega
  have htake : runs.flatten.take sp = (runs.take si).flatten ++ (runs.getD si []).take so := by
    rw [flatten_decomp hsi, List.take_append_eq_append_take,
      List.take_of_length_le (by rw [pL_flatten_take]; omega),
      List.take_append_eq_append_take, pL_flatten_take]
    have e1 : sp - pL runs si = so := by omega
    have e2 : so - (runs.getD si []).length = 0 := by omega
    rw [e1, e2, List.take_zero, List.append_nil]
  have hdrop : runs.flatten.drop ep = (runs.getD ei []).drop eo ++ (runs.drop (ei + 1)).flatten := by
    rw [flatten_decomp hei, List.drop_append_eq_append_drop,
      List.drop_of_length_le (by rw [pL_flatten_take]; omega),
      List.drop_append_eq_append_drop, pL_flatten_take]
    have e1 : ep - pL runs ei = eo := by omega
    have e2 : eo - (runs.getD ei []).length = 0 := by omega
    rw [e1, e2, List.drop_zero, List.nil_append]
  rw [spliceRuns, spliceAux_shape _ _ _ runs 0 (Nat.zero_le si) hij (by omega)]
  simp only [Nat.sub_zero]
  rw [List.flatten_append, List.flatten_cons, List.flatten_append, flatten_map_nil,
    List.nil_append, htake, hdrop]
  simp only [List.append_assoc]

/-! ## Termination of the match loop -/

theorem replaceStep_some {runs runs1 : List (List Char)} {search rep : List Char} {ss ss1 : Nat}
    (h : replaceStep runs search rep ss = some (runs1, ss1)) :
    ∃ mi, findFrom runs.flatten search ss = some mi ∧
      ss ≤ mi ∧ mi + search.length ≤ runs.flatten.length ∧
      ss1 = mi + rep.length ∧
      runs1.flatten.length + search.length = runs.flatten.length + rep.length := by
  cases hf : findFrom runs.flatten search ss with
  | none => simp [replaceStep, hf] at h
  | some mi =>
    cases hm : mapSpan runs mi (mi + search.length) with
    | none => simp [replaceStep, hf, hm] at h
    | some q =>
      obtain ⟨si, so, ei, eo⟩ := q
      simp only [replaceStep, hf, hm, Option.some.injEq, Prod.mk.injEq] at h
      obtain ⟨h1, h2⟩ := h
      obtain ⟨hge, hle, -⟩ := findFrom_some hf
      have hid := spliceRuns_flatten rep hm (by omega)
      refine ⟨mi, rfl, hge, hle, h2.symm, ?_⟩
      rw [← h1, hid]
      simp only [List.length_append, List.length_take, List.length_drop]
      have : min mi runs.flatten.length = mi := Nat.min_eq_left (by omega)
      omega

theorem replaceLoop_isSome {search rep : List Char} (hs : search ≠ []) :
    ∀ (fuel : Nat) (runs : List (List Char)) (ss count : Nat),
      runs.flatten.length - ss < fuel →
      (replaceLoop search rep fuel runs ss count).isSome = true := by
  have hslen : 1 ≤ search.length := List.length_pos.mpr hs
  intro fuel
  induction fuel with
  | zero => intro runs ss count h; omega
  | succ fuel ih =>
    intro runs ss count h
    cases hstep : replaceStep runs search rep ss with
    | none => simp [replaceLoop, hstep]
    | some pr =>
      obtain ⟨runs1, ss1⟩ := pr
      obtain ⟨mi, hf, hge, hle, hss1, hlen⟩ := replaceStep_some hstep
      simp only [replaceLoop, hstep]
      exact ih runs1 ss1 (count + 1) (by omega)

/-! ## The no-match case -/

theorem replaceInParagraph_of_none {p : Para} {search : List Char} (rep : List Char)
    (h : findFrom p.flatten search 0 = none) :
    replaceInParagraph p search rep = some (p, 0) := by
  unfold replaceInParagraph
  simp [h]

theorem findFrom_none_of_append {x t y s : List Char}
    (h : findFrom (x ++ (t ++ y)) s 0 = none) : findFrom t s 0 = none := by
  cases hf : findFrom t s 0 with
  | none => rfl
  | some i =>
    exfalso
    obtain ⟨-, hle, u, hu⟩ := findFrom_some hf
    apply findFrom_none h (x.length + i) (u ++ y) (Nat.zero_le _)
    · simp only [List.length_append]; omega
    · rw [List.drop_append_eq_append_drop, List.drop_of_length_le (by omega)]
      have e1 : x.length + i - x.length = i := by omega
      rw [e1, List.nil_append, List.drop_append_eq_append_drop]
      have e2 : i - t.length = 0 := by omega
      rw [e2, List.drop_zero, hu, List.append_assoc]

theorem findFrom_none_of_mem {d : DocModel} {s : List Char}
    (h : findFrom (docText d) s 0 = none) :
    ∀ p ∈ docParas d, findFrom p.flatten s 0 = none := by
  intro p hp
  obtain ⟨l1, l2, hsplit⟩ := List.append_of_mem hp
  have hd : docText d =
      (l1.map (fun q => q.flatten)).flatten ++
        (p.flatten ++ (l2.map (fun q => q.flatten)).flatten) := by
    rw [docText, hsplit]
    simp
  rw [hd] at h
  exact findFrom_none_of_append h

theorem repParasList_noop (search rep : List Char) :
    ∀ (ps : List Para), (∀ p ∈ ps, findFrom p.flatten search 0 = none) →
      repParas search rep ps = some (ps, 0)
  | [], _ => rfl
  | p :: rest, h => by
    have h1 := replaceInParagraph_of_none rep (h p (by simp))
    have h2 := repParasList_noop search rep rest (fun q hq => h q (by simp [hq]))
    simp [repParas, h1, h2]

mutual

theorem repTable_noop (search rep : List Char) :
    ∀ (t : DTable), (∀ p ∈ tableParas t, findFrom p.flatten search 0 = none) →
      repTable search rep t = some (t, 0)
  | .mk rows, h => by
    have hr := repRows_noop search rep rows (by simpa [tableParas] using h)
    simp [repTable, hr]

theorem repRows_noop (search rep : List Char) :
    ∀ (rows : List (List (List Para × List DTable))),
      (∀ p ∈ rowsParas rows, findFrom p.flatten search 0 = none) →
      repRows search rep rows = some (rows, 0)
  | [], _ => rfl
  | row :: rest, h => by
    have h1 := repCells_noop search rep row (fun p hp => h p (by simp [rowsParas, hp]))
    have h2 := repRows_noop search rep rest (fun p hp => h p (by simp [rowsParas, hp]))
    simp [repRows, h1, h2]

theorem repCells_noop (search rep : List Char) :
    ∀ (cells : List (List Para × List DTable)),
      (∀ p ∈ cellsParas cells, findFrom p.flatten search 0 = none) →
      repCells search rep cells = some (cells, 0)
  | [], _ => rfl
  | (ps, ts) :: rest, h => by
    have h1 := repParasList_noop search rep ps (fun p hp => h p (by simp [cellsParas, hp]))
    have h2 := repTables_noop search rep ts (fun p hp => h p (by simp [cellsParas, hp]))
    have h3 := repCells_noop search rep rest (fun p hp => h p (by simp [cellsParas, hp]))
    simp [repCells, h1, h2, h3]

theorem repTables_noop (search rep : List Char) :
    ∀ (ts : List DTable), (∀ p ∈ tablesParas ts, findFrom p.flatten search 0 = none) →
      repTables search rep ts = some (ts, 0)
  | [], _ => rfl
  | t :: rest, h => by
    have h1 := repTable_noop search rep t (fun p hp => h p (by simp [tablesParas, hp]))
    have h2 := repTables_noop search rep rest (fun p hp => h p (by simp [tablesParas, hp]))
    simp [repTables, h1, h2]

end

theorem replaceTextDoc_noop {d : DocModel} {search : List Char} (rep : List Char)
    (h : findFrom (docText d) search 0 = none) :
    replaceTextDoc d search rep = some (d, 0) := by
  have hall := findFrom_none_of_mem h
  have h1 := repParasList_noop search rep d.paras (fun p hp => hall p (by simp [docParas, hp]))
  have h2 := repTables_noop search rep d.tables (fun p hp => hall p (by simp [docParas, hp]))
  simp [replaceTextDoc, h1, h2]

/-! ## Lemmas about the filesystem model and `create_backup` -/

theorem fsGet_fsRemove (p q : String) :
    ∀ (fs : FS), fsGet (fsRemove fs p) q = if q = p then none else fsGet fs q := by
  intro fs
  induction fs with
  | nil =>
    show (none : Option String) = if q = p then none else none
    by_cases h : q = p
    · rw [if_pos h]
    · rw [if_neg h]
  | cons e rest ih =>
    obtain ⟨r, c⟩ := e
    show fsGet (if r = p then fsRemove rest p else (r, c) :: fsRemove rest p) q = _
    by_cases hrp : r = p
    · rw [if_pos hrp, ih]
      by_cases hq : q = p
      · rw [if_pos hq, if_pos hq]
      · rw [if_neg hq, if_neg hq,
          show fsGet ((r, c) :: rest) q = if q = r then some c else fsGet rest q from rfl,
          if_neg (by rw [hrp]; exact hq)]
    · rw [if_neg hrp,
        show fsGet ((r, c) :: fsRemove rest p) q =
          if q = r then some c else fsGet (fsRemove rest p) q from rfl, ih]
      by_cases hq : q = r
      · rw [if_pos hq, if_neg (by rw [hq]; exact hrp),
          show fsGet ((r, c) :: rest) q = if q = r then some c else fsGet rest q from rfl,
          if_pos hq]
      · rw [if_neg hq]
        by_cases hqp : q = p
        · rw [if_pos hqp, if_pos hqp]
        · rw [if_neg hqp, if_neg hqp,
            show fsGet ((r, c) :: rest) q = if q = r then some c else fsGet rest q from rfl,
            if_neg hq]

theorem fsGet_fsSet (fs : FS) (p c q : String) :
    fsGet (fsSet fs p c) q = if q = p then some c else fsGet fs q := by
  show (if q = p then some c else fsGet (fsRemove fs p) q) = _
  by_cases hq : q = p
  · rw [if_pos hq, if_pos hq]
  · rw [if_neg hq, if_neg hq, fsGet_fsRemove, if_neg hq]

theorem strTake_length (s : String) (n : Nat) :
    (strTake s n).length = min n s.length := by
  show (s.data.take n).length = min n s.data.length
  exact List.length_take n s.data

theorem backupName_length (stem hint fp u ext : String) :
    (backupName stem hint fp u ext).length =
      stem.length + hint.length + fp.length + u.length + ext.length + 10 := by
  have h1 : ("_backup_" : String).length = 8 := rfl
  have h2 : ("_" : String).length = 1 := rfl
  simp only [backupName, String.length_append, h1, h2]
  omega

theorem tmpName_length (b : String) : (tmpName b).length = b.length + 5 := by
  have h1 : ("." : String).length = 1 := rfl
  have h2 : (".tmp" : String).length = 4 := rfl
  simp only [tmpName, String.length_append, h1, h2]
  omega

theorem joinPath_length (d n : String) : (joinPath d n).length = d.length + n.length + 1 := by
  have h1 : ("/" : String).length = 1 := rfl
  simp only [joinPath, String.length_append, h1]
  omega

theorem backupName_inj_uid {stem hint fp u1 u2 ext : String}
    (h : backupName stem hint fp u1 ext = backupName stem hint fp u2 ext) : u1 = u2 := by
  have hd := congrArg String.data h
  simp only [backupName, String.data_append, List.append_assoc] at hd
  have h1 := List.append_cancel_left hd
  have h2 := List.append_cancel_left h1
  have h3 := List.append_cancel_left h2
  have h4 := List.append_cancel_left h3
  have h5 := List.append_cancel_left h4
  have h6 := List.append_cancel_left h5
  exact String.ext (List.append_cancel_right h6)

theorem joinPath_inj {d a b : String} (h : joinPath d a = joinPath d b) : a = b := by
  have hd := congrArg String.data h
  simp only [joinPath, String.data_append, List.append_assoc] at hd
  exact String.ext (List.append_cancel_left (List.append_cancel_left hd))

theorem createBackupLoop_success_form
    (backupDir stem hint fp ext src : String) (uids : Nat → String)
    (copyOk collides : Nat → Bool) :
    ∀ (n k : Nat) (fs : FS) (p : String) (g : FS),
      createBackupLoop backupDir stem hint fp ext src uids copyOk collides n k fs =
        .success p g →
      ∃ j, k ≤ j ∧ j < k + n ∧
        p = joinPath backupDir (backupName stem hint fp (strTake (uids j) 8) ext) := by
  intro n
  induction n with
  | zero => intro k fs p g h; exact absurd h (by simp [createBackupLoop])
  | succ n ih =>
    intro k fs p g h
    simp only [createBackupLoop] at h
    by_cases hcopy : copyOk k = true
    · rw [if_pos hcopy] at h
      by_cases hcol : collides k = true
      · rw [if_pos hcol] at h
        obtain ⟨j, hj1, hj2, hj3⟩ := ih (k + 1) _ p g h
        exact ⟨j, by omega, by omega, hj3⟩
      · rw [if_neg hcol] at h
        simp only [BackupOutcome.success.injEq] at h
        exact ⟨k, Nat.le_refl k, by omega, h.1.symm⟩
    · rw [if_neg hcopy] at h
      exact absurd h (by simp)

theorem createBackupLoop_clean
    (backupDir stem hint fp ext src : String) (uids : Nat → String)
    (copyOk collides : Nat → Bool)
    (hu : ∀ j, 8 ≤ (uids j).length) :
    ∀ (n k : Nat) (fs : FS),
      (∀ j, fsGet fs
          (joinPath backupDir (tmpName (backupName stem hint fp (strTake (uids j) 8) ext))) =
        none) →
      (∀ j, fsGet
          (createBackupLoop backupDir stem hint fp ext src uids copyOk collides n k fs).fsOf
          (joinPath backupDir (tmpName (backupName stem hint fp (strTake (uids j) 8) ext))) =
        none) ∧
      (createBackupLoop backupDir stem hint fp ext src uids copyOk collides n k fs).contentOk
          src = true := by
  intro n
  induction n with
  | zero => intro k fs hclean; exact ⟨hclean, rfl⟩
  | succ n ih =>
    intro k fs hclean
    have hulen : ∀ j, (strTake (uids j) 8).length = 8 := by
      intro j; rw [strTake_length]; exact Nat.min_eq_left (hu j)
    simp only [createBackupLoop]
    by_cases hcopy : copyOk k = true
    · rw [if_pos hcopy]
      by_cases hcol : collides k = true
      · rw [if_pos hcol]
        refine ih (k + 1) _ (fun j => ?_)
        rw [fsGet_fsRemove]
        by_cases hj : joinPath backupDir
            (tmpName (backupName stem hint fp (strTake (uids j) 8) ext)) =
            joinPath backupDir (tmpName (backupName stem hint fp (strTake (uids k) 8) ext))
        · rw [if_pos hj]
        · rw [if_neg hj, fsGet_fsSet, if_neg hj, fsGet_fsRemove, if_neg hj]
          exact hclean j
      · rw [if_neg hcol]
        have hne : ∀ j, joinPath backupDir
            (tmpName (backupName stem hint fp (strTake (uids j) 8) ext)) ≠
            joinPath backupDir (backupName stem hint fp (strTake (uids k) 8) ext) := by
          intro j heq
          have := congrArg String.length heq
          rw [joinPath_length, joinPath_length, tmpName_length, backupName_length,
            backupName_length, hulen j, hulen k] at this
          omega
        constructor
        · intro j
          simp only [BackupOutcome.fsOf]
          rw [fsGet_fsSet, if_neg (hne j), fsGet_fsRemove]
          by_cases hj : joinPath backupDir
              (tmpName (backupName stem hint fp (strTake (uids j) 8) ext)) =
              joinPath backupDir (tmpName (backupName stem hint fp (strTake (uids k) 8) ext))
          · rw [if_pos hj]
          · rw [if_neg hj, fsGet_fsSet, if_neg hj, fsGet_fsRemove, if_neg hj]
            exact hclean j
        · simp only [BackupOutcome.contentOk]
          rw [fsGet_fsSet, if_pos rfl]
          exact beq_self_eq_true (some src)
    · rw [if_neg hcopy]
      constructor
      · intro j
        simp only [BackupOutcome.fsOf]
        rw [fsGet_fsRemove]
        by_cases hj : joinPath backupDir
            (tmpName (backupName stem hint fp (strTake (uids j) 8) ext)) =
            joinPath backupDir (tmpName (backupName stem hint fp (strTake (uids k) 8) ext))
        · rw [if_pos hj]
        · rw [if_neg hj]; exact hclean j
      · rfl

theorem createBackupLoop_exhausted
    (backupDir stem hint fp ext src : String) (uids : Nat → String)
    (copyOk collides : Nat → Bool)
    (hcopy : ∀ j, copyOk j = true) (hcol : ∀ j, collides j = true) :
    ∀ (n k : Nat) (fs : FS), ∃ g,
      createBackupLoop backupDir stem hint fp ext src uids copyOk collides n k fs =
        .exhausted g := by
  intro n
  induction n with
  | zero => intro k fs; exact ⟨fs, rfl⟩
  | succ n ih =>
    intro k fs
    simp only [createBackupLoop, if_pos (hcopy k), if_pos (hcol k)]
    exact ih (k + 1) _

/-! ## Lemmas about `process_documents` -/

theorem runTask_path (p : String) (b : Bool) (env : TaskEnv) : (runTask p b env).path = p := by
  unfold runTask
  repeat' split
  all_goals rfl

theorem aggregate_no_stop (task : Nat → PResult) (stopAt : Nat → Bool)
    (h : ∀ i, stopAt i = false) :
    ∀ (ks : List Nat) (i : Nat), aggregate task stopAt i ks = ks.map task := by
  intro ks
  induction ks with
  | nil => intro i; rfl
  | cons k rest ih => intro i; simp [aggregate, h i, ih]

theorem map_getD_range (l : List α) (d : α) :
    (List.range l.length).map (fun k => l.getD k d) = l := by
  apply List.ext_getElem
  · simp
  · intro i h1 h2
    rw [List.getElem_map, List.getElem_range]
    exact List.getD_eq_getElem l d h2

theorem length_filter_add (l : List α) (q : α → Bool) :
    (l.filter q).length + (l.filter (fun a => !(q a))).length = l.length := by
  induction l with
  | nil => rfl
  | cons a rest ih =>
    cases h : q a <;> simp [List.filter_cons, h] <;> omega

theorem count_filter_own [DecidableEq α] (p : α) (q : α → Bool) :
    ∀ (l : List α), (l.filter q).count p = if q p then l.count p else 0 := by
  intro l
  induction l with
  | nil => simp
  | cons a rest ih =>
    cases h : q a <;> by_cases hap : a = p <;>
      simp_all [List.filter_cons, List.count_cons]

theorem process_documents_count
    (paths : List String) (valid : String → Bool) (doBackup : Bool) (envs : Nat → TaskEnv)
    (arrival : List Nat) (stopAt : Nat → Bool)
    (hstop : ∀ i, stopAt i = false)
    (hperm : arrival.Perm (List.range (paths.filter valid).length)) (p : String) :
    ((process_documents paths valid doBackup envs arrival stopAt).map PResult.path).count p =
      (if p ∈ paths.filter (fun q => !(valid q)) then 1 else 0) +
        (paths.filter valid).count p := by
  unfold process_documents
  rw [aggregate_no_stop _ _ hstop, List.map_append, List.count_append]
  have hinv : (((paths.filter (fun q => !(valid q))).dedup.map
      (fun q => (⟨q, false, "Invalid or unreadable DOCX file", 0, ""⟩ : PResult))).map
        PResult.path) = (paths.filter (fun q => !(valid q))).dedup := by
    rw [List.map_map]
    exact List.map_id _
  have hval : (((arrival.map (fun k =>
      runTask ((paths.filter valid).getD k "") doBackup (envs k)))).map PResult.path) =
      arrival.map (fun k => (paths.filter valid).getD k "") := by
    rw [List.map_map]
    apply List.map_congr_left
    intro k _
    exact runTask_path _ _ _
  rw [hinv, hval, List.count_dedup]
  have hpm : (arrival.map (fun k => (paths.filter valid).getD k "")).Perm
      ((List.range (paths.filter valid).length).map
        (fun k => (paths.filter valid).getD k "")) :=
    hperm.map _
  rw [hpm.count_eq, map_getD_range]

/-! ## Claim theorems -/

/-- C1: one replacement step of `_replace_in_paragraph` on a match of a
nonempty search string spanning runs `si..ei` with `si < ei` keeps the
run count unchanged, sets run `si` to
(run `si` before the local start offset) ++ replace ++ (run `ei` after
the local end offset), empties exactly the runs `si+1..ei`, and leaves
every other run's text unchanged (no run object is deleted). -/
theorem multiRun_step_spec {runs : List (List Char)} {search : List Char} (rep : List Char)
    {ss mi si so ei eo : Nat}
    (_hs : search ≠ [])
    (hfind : findFrom runs.flatten search ss = some mi)
    (hspan : mapSpan runs mi (mi + search.length) = some (si, so, ei, eo))
    (hij : si < ei) :
    replaceStep runs search rep ss =
      some (spliceRuns runs si so ei eo rep, mi + rep.length) ∧
    (spliceRuns runs si so ei eo rep).length = runs.length ∧
    (spliceRuns runs si so ei eo rep).getD si [] =
      (runs.getD si []).take so ++ rep ++ (runs.getD ei []).drop eo ∧
    (∀ k, si < k → k ≤ ei → (spliceRuns runs si so ei eo rep).getD k [] = []) ∧
    (∀ k, k < si ∨ (ei < k ∧ k < runs.length) →
      (spliceRuns runs si so ei eo rep).getD k [] = runs.getD k []) := by
  obtain ⟨hij', hei, -⟩ := mapSpan_spec hspan (Nat.le_add_right mi search.length)
  refine ⟨by simp [replaceStep, hfind, hspan], spliceAux_length _ _ _ runs 0, ?_, ?_, ?_⟩
  · rw [spliceRuns, spliceAux_getD]
    rw [if_pos (by omega), if_pos (by omega)]
  · intro k hk1 hk2
    rw [spliceRuns, spliceAux_getD]
    rw [if_pos (by omega), if_neg (by omega), if_pos (by omega)]
  · intro k hk
    rcases hk with hk | ⟨hk1, hk2⟩
    · rw [spliceRuns, spliceAux_getD]
      by_cases hkl : k < runs.length
      · rw [if_pos hkl, if_neg (by omega), if_neg (by omega)]
      · rw [if_neg hkl]
        rw [List.getD_eq_getElem?_getD, List.getElem?_eq_none (by omega)]
        rfl
    · rw [spliceRuns, spliceAux_getD]
      rw [if_pos (by omega), if_neg (by omega), if_neg (by omega)]

/-- Witness for C1 at a concrete paragraph: runs `ab | cd | ef`, search
`bcde`, replace `X`; the match spans runs 0..2, the result is
`aXf | (empty) | (empty)`. -/
theorem multiRun_step_spec_witness :
    findFrom [['a','b'],['c','d'],['e','f']].flatten ['b','c','d','e'] 0 = some 1 ∧
    mapSpan [['a','b'],['c','d'],['e','f']] 1 (1 + (['b','c','d','e'] : List Char).length) =
      some (0, 1, 2, 1) ∧
    (spliceRuns [['a','b'],['c','d'],['e','f']] 0 1 2 1 ['X']).length = 3 ∧
    (spliceRuns [['a','b'],['c','d'],['e','f']] 0 1 2 1 ['X']).getD 0 [] = ['a','X','f'] ∧
    (spliceRuns [['a','b'],['c','d'],['e','f']] 0 1 2 1 ['X']).getD 1 [] = [] ∧
    (spliceRuns [['a','b'],['c','d'],['e','f']] 0 1 2 1 ['X']).getD 2 [] = [] := by
  have hf : findFrom [['a','b'],['c','d'],['e','f']].flatten ['b','c','d','e'] 0 = some 1 := by
    decide
  have hm : mapSpan [['a','b'],['c','d'],['e','f']] 1
      (1 + (['b','c','d','e'] : List Char).length) = some (0, 1, 2, 1) := by decide
  obtain ⟨-, h1, h2, h3, -⟩ :=
    multiRun_step_spec ['X'] (by decide) hf hm (by decide)
  exact ⟨hf, hm, by rw [h1]; rfl, by rw [h2]; decide, h3 1 (by decide) (by decide),
    h3 2 (by decide) (by decide)⟩

/-- Auxiliary for C2: with an empty search string and replace string
`X`, the match loop on a paragraph whose single run reads
`'X' * s ++ "ab"` with the cursor at `s` never breaks: every iteration
matches the empty string at the cursor, inserts `X`, and moves the
cursor one step right while the text also grows by one. -/
theorem emptySearch_diverges_aux :
    ∀ (fuel s count : Nat),
      replaceLoop [] ['X'] fuel [List.replicate s 'X' ++ ['a', 'b']] s count = none := by
  intro fuel
  induction fuel with
  | zero => intro s count; rfl
  | succ fuel ih =>
    intro s count
    have hflat : [List.replicate s 'X' ++ ['a','b']].flatten =
        List.replicate s 'X' ++ ['a','b'] := by simp
    have hlen : (List.replicate s 'X' ++ (['a','b'] : List Char)).length = s + 2 := by
      simp
    have hf : findFrom ([List.replicate s 'X' ++ ['a','b']].flatten) [] s = some s := by
      rw [hflat, findFrom_nil_search, if_pos (by omega)]
    have hm : mapSpan [List.replicate s 'X' ++ ['a','b']] s s = some (0, s, 0, s) := by
      simp only [mapSpan, mapSpanStart, Nat.zero_add, hlen]
      rw [if_pos (by omega), if_pos (by omega)]
      simp
    have hsplice : spliceRuns [List.replicate s 'X' ++ ['a','b']] 0 s 0 s ['X'] =
        [List.replicate (s + 1) 'X' ++ ['a','b']] := by
      rw [spliceRuns]
      simp only [spliceAux, List.getD_cons_zero, if_pos rfl]
      have ht : (List.replicate s 'X' ++ (['a','b'] : List Char)).take s =
          List.replicate s 'X' := by
        rw [List.take_append_eq_append_take, List.length_replicate, Nat.sub_self,
          List.take_zero, List.append_nil,
          List.take_of_length_le (Nat.le_of_eq (List.length_replicate s 'X'))]
      have hd : (List.replicate s 'X' ++ (['a','b'] : List Char)).drop s =
          ['a','b'] := by
        rw [List.drop_append_eq_append_drop, List.length_replicate, Nat.sub_self,
          List.drop_zero,
          List.drop_of_length_le (Nat.le_of_eq (List.length_replicate s 'X')),
          List.nil_append]
      rw [ht, hd, List.replicate_succ' ]
      simp
    have hstep : replaceStep [List.replicate s 'X' ++ ['a','b']] [] ['X'] s =
        some ([List.replicate (s + 1) 'X' ++ ['a','b']], s + 1) := by
      simp only [replaceStep, hf, List.length_nil, Nat.add_zero, hm, hsplice,
        List.length_cons]
    simp only [replaceLoop, hstep]
    exact ih (s + 1) (count + 1)

/-- C2: the code does not reject an empty search string.  On a paragraph
with one run `"ab"`, search `""` and replace `"X"`, the guard
`if search_text not in paragraph.text` passes (Python treats the empty
string as contained in every string) and the match loop never
terminates: for every iteration budget the loop is still running
(`none` = fuel exhausted without a `break`), so no count is ever
returned and no error is raised. -/
theorem emptySearch_not_rejected :
    (∀ fuel count, replaceLoop [] ['X'] fuel [['a','b']] 0 count = none) ∧
    replaceInParagraph [['a','b']] [] ['X'] = none := by
  constructor
  · intro fuel count
    have h := emptySearch_diverges_aux fuel 0 count
    simpa using h
  · have h := emptySearch_diverges_aux ([['a','b']] : List (List Char)).flatten.length.succ 0 0
    simp only [List.replicate_zero, List.nil_append] at h
    rw [replaceInParagraph, if_pos (by rw [findFrom_nil_search, if_pos (by simp)]; rfl)]
    simpa using h

/-- C4: for every paragraph, nonempty search string and arbitrary
replace string, the match-and-splice loop of `_replace_in_paragraph`
terminates: an iteration budget of `paragraph_text.length + 1` always
suffices, because each iteration strictly decreases the length of the
text remaining at or after the cursor. -/
theorem replaceInParagraph_terminates (runs : List (List Char)) (search rep : List Char)
    (hs : search ≠ []) :
    (replaceInParagraph runs search rep).isSome = true := by
  unfold replaceInParagraph
  by_cases h : (findFrom runs.flatten search 0).isSome
  · rw [if_pos h]
    exact replaceLoop_isSome hs _ runs 0 0 (by omega)
  · rw [if_neg h]; rfl

/-- Witness for C4: search `"a"`, replace `"aa"` (the replacement
re-contains the search string) on the one-run paragraph `"a"`. -/
theorem replaceInParagraph_terminates_witness :
    (['a'] : List Char) ≠ [] ∧
    (replaceInParagraph [['a']] ['a'] ['a','a']).isSome = true :=
  ⟨by decide, replaceInParagraph_terminates [['a']] ['a'] ['a','a'] (by decide)⟩

/-- C8: if a nonempty search string does not occur anywhere in the
document's text, `replace_text` returns 0 and the document — every
paragraph, including those inside arbitrarily nested tables — is
unchanged. -/
theorem replace_absent_noop (d : DocModel) (search rep : List Char)
    (_hs : search ≠ []) (habs : findFrom (docText d) search 0 = none) :
    replaceTextDoc d search rep = some (d, 0) :=
  replaceTextDoc_noop rep habs

/-- C7: `apply_run_format` overwrites exactly those run attributes whose
fields are present in the snapshot and leaves every field absent from
the snapshot untouched (first ten conjuncts); consequently, for the
capture-mutate-reapply sequence of `_replace_in_paragraph` (capture from
the start run, assign the new text — which may leave the run's
formatting state in an arbitrary state `alt` — then reapply), every
attribute that was captured from the original run is restored to its
captured value, i.e. the pre-mutation value of the run (last ten
conjuncts; fields captured under a Python truthiness guard are restored
exactly when they were truthy). -/
theorem apply_run_format_spec (run snap alt : RunFormat) :
    ((apply_run_format run snap).fontName =
      if snap.fontName.isSome then snap.fontName else run.fontName) ∧
    ((apply_run_format run snap).fontSize =
      if snap.fontSize.isSome then snap.fontSize else run.fontSize) ∧
    ((apply_run_format run snap).bold =
      if snap.bold.isSome then snap.bold else run.bold) ∧
    ((apply_run_format run snap).italic =
      if snap.italic.isSome then snap.italic else run.italic) ∧
    ((apply_run_format run snap).underline =
      if snap.underline.isSome then snap.underline else run.underline) ∧
    ((apply_run_format run snap).colorRgb =
      if snap.colorRgb.isSome then snap.colorRgb else run.colorRgb) ∧
    ((apply_run_format run snap).highlightColor =
      if snap.highlightColor.isSome then snap.highlightColor else run.highlightColor) ∧
    ((apply_run_format run snap).strike =
      if snap.strike.isSome then snap.strike else run.strike) ∧
    ((apply_run_format run snap).subScript =
      if snap.subScript.isSome then snap.subScript else run.subScript) ∧
    ((apply_run_format run snap).superScript =
      if snap.superScript.isSome then snap.superScript else run.superScript) ∧
    ((apply_run_format alt (capture_run_format run)).fontName =
      if run.fontName.getD "" ≠ "" then run.fontName else alt.fontName) ∧
    ((apply_run_format alt (capture_run_format run)).fontSize =
      if run.fontSize.getD 0 ≠ 0 then run.fontSize else alt.fontSize) ∧
    ((apply_run_format alt (capture_run_format run)).bold =
      if run.bold.isSome then run.bold else alt.bold) ∧
    ((apply_run_format alt (capture_run_format run)).italic =
      if run.italic.isSome then run.italic else alt.italic) ∧
    ((apply_run_format alt (capture_run_format run)).underline =
      if run.underline.getD false then run.underline else alt.underline) ∧
    ((apply_run_format alt (capture_run_format run)).colorRgb =
      if run.colorRgb.isSome then run.colorRgb else alt.colorRgb) ∧
    ((apply_run_format alt (capture_run_format run)).highlightColor =
      if run.highlightColor.getD 0 ≠ 0 then run.highlightColor else alt.highlightColor) ∧
    ((apply_run_format alt (capture_run_format run)).strike =
      if run.strike.isSome then run.strike else alt.strike) ∧
    ((apply_run_format alt (capture_run_format run)).subScript =
      if run.subScript.isSome then run.subScript else alt.subScript) ∧
    ((apply_run_format alt (capture_run_format run)).superScript =
      if run.superScript.isSome then run.superScript else alt.superScript) := by
  have happly : ∀ {α : Type} (s c : Option α), applyField s c = if s.isSome then s else c := by
    intro α s c; cases s <;> rfl
  refine ⟨happly _ _, happly _ _, happly _ _, happly _ _, happly _ _, happly _ _,
    happly _ _, happly _ _, happly _ _, happly _ _,
    ?_, ?_, happly _ _, happly _ _, ?_, happly _ _, ?_, happly _ _, happly _ _, happly _ _⟩
  · cases hr : run.fontName with
    | none => simp [apply_run_format, capture_run_format, applyField, hr]
    | some s =>
      by_cases hse : s = "" <;>
        simp [apply_run_format, capture_run_format, applyField, hr, hse]
  · cases hr : run.fontSize with
    | none => simp [apply_run_format, capture_run_format, applyField, hr]
    | some n =>
      by_cases hn : n = 0 <;>
        simp [apply_run_format, capture_run_format, applyField, hr, hn]
  · cases hr : run.underline with
    | none => simp [apply_run_format, capture_run_format, applyField, hr]
    | some b =>
      cases b <;> simp [apply_run_format, capture_run_format, applyField, hr]
  · cases hr : run.highlightColor with
    | none => simp [apply_run_format, capture_run_format, applyField, hr]
    | some n =>
      by_cases hn : n = 0 <;>
        simp [apply_run_format, capture_run_format, applyField, hr, hn]

/-- C6 counterexample: two valid input paths, both tasks complete, but
`stop()` is observed by the aggregation loop at its second iteration,
so the loop breaks and the completed second task's result is dropped:
only one result is returned for two input paths and no result carries
path "b". -/
theorem process_documents_drops_after_stop :
    process_documents ["a", "b"] (fun _ => true) false
        (fun _ => ⟨false, true, true, some "", 0, true⟩) [0, 1] (fun i => decide (1 ≤ i)) =
      [⟨"a", true, "Successfully processed", 0, ""⟩] ∧
    (process_documents ["a", "b"] (fun _ => true) false
        (fun _ => ⟨false, true, true, some "", 0, true⟩) [0, 1]
        (fun i => decide (1 ≤ i))).length ≠ (["a", "b"] : List String).length :=
  ⟨by decide, by decide⟩

/-- C6 (amended): when the input paths are pairwise distinct and the
stop flag is never observed by the aggregation loop, the result list
contains exactly one result per input path — the invalid paths as
invalid/unreadable failed results and each valid path's task result as
that task completes, in arrival order — and every valid-path task that
observed the cancellation flag at task start contributes a "Processing
cancelled" failed result produced without I/O; but once the aggregation
loop observes the stop flag it exits, and the results of tasks that
complete afterwards are dropped (see the counterexample). -/
theorem process_documents_complete
    (paths : List String) (valid : String → Bool) (doBackup : Bool) (envs : Nat → TaskEnv)
    (arrival : List Nat) (stopAt : Nat → Bool)
    (hstop : ∀ i, stopAt i = false)
    (hperm : arrival.Perm (List.range (paths.filter valid).length))
    (hnodup : paths.Nodup) :
    (process_documents paths valid doBackup envs arrival stopAt).length = paths.length ∧
    (∀ p ∈ paths,
      ((process_documents paths valid doBackup envs arrival stopAt).map PResult.path).count p
        = 1) ∧
    (∀ k, k < (paths.filter valid).length → (envs k).sawStop = true →
      (⟨(paths.filter valid).getD k "", false, "Processing cancelled", 0, ""⟩ : PResult) ∈
        process_documents paths valid doBackup envs arrival stopAt) := by
  refine ⟨?_, ?_, ?_⟩
  · unfold process_documents
    rw [aggregate_no_stop _ _ hstop, List.length_append, List.length_map, List.length_map,
      (hnodup.filter _).dedup, hperm.length_eq, List.length_range]
    have := length_filter_add paths valid
    omega
  · intro p hp
    rw [process_documents_count paths valid doBackup envs arrival stopAt hstop hperm p,
      count_filter_own]
    have hcount : paths.count p = 1 := List.count_eq_one_of_mem hnodup hp
    cases hv : valid p
    · rw [if_pos (List.mem_filter.mpr ⟨hp, by simp [hv]⟩), if_neg (by simp [hv])]
    · rw [if_neg (fun hmem => by simpa [hv] using (List.mem_filter.mp hmem).2)]
      simp [hcount]
  · intro k hk hsaw
    have hkarr : k ∈ arrival := hperm.mem_iff.mpr (List.mem_range.mpr hk)
    have htask : runTask ((paths.filter valid).getD k "") doBackup (envs k) =
        ⟨(paths.filter valid).getD k "", false, "Processing cancelled", 0, ""⟩ := by
      simp [runTask, hsaw]
    unfold process_documents
    rw [aggregate_no_stop _ _ hstop]
    exact List.mem_append.mpr (Or.inr (List.mem_map.mpr ⟨k, hkarr, htask⟩))

/-- Witness for the amended C6: two distinct valid paths, arrival order
`[1, 0]`, stop flag never set; task 1 saw the cancellation flag at task
start.  The theorem yields two results, one per path, with task 1
reported as cancelled. -/
theorem process_documents_complete_witness :
    (process_documents ["a", "b"] (fun _ => true) false
        (fun k => if k = 1 then ⟨true, true, true, some "", 0, true⟩
          else ⟨false, true, true, some "", 3, true⟩)
        [1, 0] (fun _ => false)).length = 2 ∧
    ((process_documents ["a", "b"] (fun _ => true) false
        (fun k => if k = 1 then ⟨true, true, true, some "", 0, true⟩
          else ⟨false, true, true, some "", 3, true⟩)
        [1, 0] (fun _ => false)).map PResult.path).count "b" = 1 ∧
    (⟨"b", false, "Processing cancelled", 0, ""⟩ : PResult) ∈
      process_documents ["a", "b"] (fun _ => true) false
        (fun k => if k = 1 then ⟨true, true, true, some "", 0, true⟩
          else ⟨false, true, true, some "", 3, true⟩)
        [1, 0] (fun _ => false) := by
  obtain ⟨h1, h2, h3⟩ := process_documents_complete ["a", "b"] (fun _ => true) false
    (fun k => if k = 1 then ⟨true, true, true, some "", 0, true⟩
      else ⟨false, true, true, some "", 3, true⟩)
    [1, 0] (fun _ => false) (fun _ => rfl) (by decide) (by decide)
  exact ⟨h1, h2 "b" (by decide), by simpa using h3 1 (by decide) (by decide)⟩

/-- C10: invalid paths are collected as a set difference, so a repeated
invalid path yields exactly one failed result however often it occurs,
while a valid path is submitted and reported once per occurrence; the
result list's length is the number of distinct invalid paths plus the
number of valid-path occurrences, which is smaller than the input list
whenever an invalid path repeats, even with nothing cancelled. -/
theorem process_documents_dedups_invalid
    (paths : List String) (valid : String → Bool) (doBackup : Bool) (envs : Nat → TaskEnv)
    (arrival : List Nat) (stopAt : Nat → Bool)
    (hstop : ∀ i, stopAt i = false)
    (hperm : arrival.Perm (List.range (paths.filter valid).length)) :
    (∀ p, valid p = false → p ∈ paths →
      ((process_documents paths valid doBackup envs arrival stopAt).map PResult.path).count p
        = 1) ∧
    (∀ p, valid p = true →
      ((process_documents paths valid doBackup envs arrival stopAt).map PResult.path).count p
        = paths.count p) ∧
    (process_documents paths valid doBackup envs arrival stopAt).length =
      (paths.filter (fun q => !(valid q))).dedup.length + (paths.filter valid).length := by
  refine ⟨?_, ?_, ?_⟩
  · intro p hv hp
    rw [process_documents_count paths valid doBackup envs arrival stopAt hstop hperm p,
      count_filter_own, if_pos (List.mem_filter.mpr ⟨hp, by simp [hv]⟩),
      if_neg (by simp [hv])]
  · intro p hv
    rw [process_documents_count paths valid doBackup envs arrival stopAt hstop hperm p,
      count_filter_own,
      if_neg (fun hmem => by simpa [hv] using (List.mem_filter.mp hmem).2), if_pos hv,
      Nat.zero_add]
  · unfold process_documents
    rw [aggregate_no_stop _ _ hstop, List.length_append, List.length_map, List.length_map,
      hperm.length_eq, List.length_range]

/-- Witness for C10: input `["x", "x", "a"]` where only "a" is valid:
the duplicated invalid path "x" gets one result, and the result list has
2 entries for 3 inputs. -/
theorem process_documents_dedups_invalid_witness :
    ((process_documents ["x", "x", "a"] (fun p => p == "a") false
        (fun _ => ⟨false, true, true, some "", 0, true⟩) [0]
        (fun _ => false)).map PResult.path).count "x" = 1 ∧
    (process_documents ["x", "x", "a"] (fun p => p == "a") false
        (fun _ => ⟨false, true, true, some "", 0, true⟩) [0] (fun _ => false)).length = 2 ∧
    (["x", "x", "a"] : List String).length = 3 := by
  obtain ⟨h1, -, h3⟩ := process_documents_dedups_invalid ["x", "x", "a"] (fun p => p == "a")
    false (fun _ => ⟨false, true, true, some "", 0, true⟩) [0] (fun _ => false)
    (fun _ => rfl) (by decide)
  exact ⟨h1 "x" (by decide) (by decide), by rw [h3]; decide, by decide⟩

/-- C3 counterexample: a pre-existing file at the generated final backup
path is NOT preserved.  `os.replace` silently replaces an existing
regular file at the destination (it raises `FileExistsError` only in
exotic situations, never for a plain existing file on POSIX or Windows),
so with the destination already occupied by `"OLD"` the first attempt
succeeds, no new suffix is tried, and the pre-existing file is
overwritten with the source's content. -/
theorem create_backup_overwrites :
    create_backup (fun _ => "abcdef0") (fun s => s) "/d/doc.docx" "doc" "d" ".docx" "bk" "SRC"
        (fun _ => "01234567zz") (fun _ => true) (fun _ => false)
        [("bk/doc_backup_d_abcdef_01234567.docx", "OLD")] =
      .success "bk/doc_backup_d_abcdef_01234567.docx"
        [("bk/doc_backup_d_abcdef_01234567.docx", "SRC")] ∧
    fsGet [("bk/doc_backup_d_abcdef_01234567.docx", "OLD")]
      "bk/doc_backup_d_abcdef_01234567.docx" = some "OLD" ∧
    ("OLD" : String) ≠ "SRC" :=
  ⟨by decide, by decide, by decide⟩

/-- C3 (amended): on every exit path of `create_backup` — success, copy
exception, `FileExistsError` collisions with retries, or exhaustion of
the 50 attempts — no temporary file of the call remains in the backup
directory; on success the returned path holds the source's content; and
if every attempt's rename raises `FileExistsError` the call fails (for
this document only) with the `RuntimeError` of line 126. -/
theorem create_backup_no_temp
    (sha abspath : String → String) (srcPath stem hint ext backupDir srcContent : String)
    (uids : Nat → String) (copyOk collides : Nat → Bool) (fs : FS)
    (hu : ∀ j, 8 ≤ (uids j).length)
    (hclean : ∀ j, fsGet fs (joinPath backupDir (tmpName (backupName stem hint
        (fingerprint sha abspath srcPath) (strTake (uids j) 8) ext))) = none) :
    (∀ j, fsGet (create_backup sha abspath srcPath stem hint ext backupDir srcContent
          uids copyOk collides fs).fsOf
        (joinPath backupDir (tmpName (backupName stem hint
          (fingerprint sha abspath srcPath) (strTake (uids j) 8) ext))) = none) ∧
    (create_backup sha abspath srcPath stem hint ext backupDir srcContent
        uids copyOk collides fs).contentOk srcContent = true ∧
    ((∀ j, copyOk j = true) → (∀ j, collides j = true) →
      ∃ g, create_backup sha abspath srcPath stem hint ext backupDir srcContent
          uids copyOk collides fs = .exhausted g) := by
  obtain ⟨h1, h2⟩ := createBackupLoop_clean backupDir stem hint
    (fingerprint sha abspath srcPath) ext srcContent uids copyOk collides hu 50 0 fs hclean
  exact ⟨h1, h2, fun hc hcol =>
    createBackupLoop_exhausted backupDir stem hint (fingerprint sha abspath srcPath) ext
      srcContent uids copyOk collides hc hcol 50 0 fs⟩

/-- Witness for the amended C3 at a concrete call on an empty
filesystem. -/
theorem create_backup_no_temp_witness :
    fsGet (create_backup (fun _ => "abcdef0") (fun s => s) "/d/doc.docx" "doc" "d" ".docx"
          "bk" "SRC" (fun _ => "01234567zz") (fun _ => true) (fun _ => false) []).fsOf
        (joinPath "bk" (tmpName (backupName "doc" "d"
          (fingerprint (fun _ => "abcdef0") (fun s => s) "/d/doc.docx")
          (strTake ((fun _ : Nat => "01234567zz") 0) 8) ".docx"))) = none ∧
    (create_backup (fun _ => "abcdef0") (fun s => s) "/d/doc.docx" "doc" "d" ".docx"
        "bk" "SRC" (fun _ => "01234567zz") (fun _ => true) (fun _ => false) []).contentOk
      "SRC" = true := by
  obtain ⟨h1, h2, -⟩ := create_backup_no_temp (fun _ => "abcdef0") (fun s => s) "/d/doc.docx"
    "doc" "d" ".docx" "bk" "SRC" (fun _ => "01234567zz") (fun _ => true) (fun _ => false) []
    (fun _ => (by decide : 8 ≤ ("01234567zz" : String).length)) (fun _ => rfl)
  exact ⟨h1 0, h2⟩

/-- C5: every successful `create_backup` call returns a path of exactly
the form `backupDir / (stem ++ "_backup_" ++ hint ++ "_" ++ fingerprint
++ "_" ++ suffix ++ ext)` where the fingerprint — the same value on
every call for the same source, being a pure function of the source's
absolute path — has 6 characters and the random suffix has 8; two calls
for the same source differ only in the suffix, and distinct suffixes
give distinct full paths. -/
theorem backup_name_traceability
    (sha abspath : String → String) (srcPath stem hint ext backupDir src1 src2 : String)
    (uids1 uids2 : Nat → String) (copy1 copy2 col1 col2 : Nat → Bool) (fs1 fs2 : FS)
    {p1 p2 : String} {g1 g2 : FS}
    (h1 : create_backup sha abspath srcPath stem hint ext backupDir src1 uids1 copy1 col1 fs1 =
      .success p1 g1)
    (h2 : create_backup sha abspath srcPath stem hint ext backupDir src2 uids2 copy2 col2 fs2 =
      .success p2 g2)
    (hu1 : ∀ j, 8 ≤ (uids1 j).length) (hu2 : ∀ j, 8 ≤ (uids2 j).length)
    (hsha : 6 ≤ (sha (abspath srcPath)).length) :
    ∃ u1 u2,
      u1.length = 8 ∧ u2.length = 8 ∧
      (fingerprint sha abspath srcPath).length = 6 ∧
      p1 = joinPath backupDir
        (stem ++ "_backup_" ++ hint ++ "_" ++ fingerprint sha abspath srcPath ++ "_" ++
          u1 ++ ext) ∧
      p2 = joinPath backupDir
        (stem ++ "_backup_" ++ hint ++ "_" ++ fingerprint sha abspath srcPath ++ "_" ++
          u2 ++ ext) ∧
      (u1 ≠ u2 → p1 ≠ p2) := by
  obtain ⟨j1, -, -, hp1⟩ := createBackupLoop_success_form backupDir stem hint
    (fingerprint sha abspath srcPath) ext src1 uids1 copy1 col1 50 0 fs1 p1 g1 h1
  obtain ⟨j2, -, -, hp2⟩ := createBackupLoop_success_form backupDir stem hint
    (fingerprint sha abspath srcPath) ext src2 uids2 copy2 col2 50 0 fs2 p2 g2 h2
  refine ⟨strTake (uids1 j1) 8, strTake (uids2 j2) 8, ?_, ?_, ?_, hp1, hp2, ?_⟩
  · rw [strTake_length]; exact Nat.min_eq_left (hu1 j1)
  · rw [strTake_length]; exact Nat.min_eq_left (hu2 j2)
  · rw [fingerprint, strTake_length]; exact Nat.min_eq_left hsha
  · intro hne heq
    rw [hp1, hp2] at heq
    exact hne (backupName_inj_uid (joinPath_inj heq))

/-- Witness for C5: two concrete calls for the same source with suffix
streams `"11111111…"` and `"22222222…"` produce distinct full paths. -/
theorem backup_name_traceability_witness :
    ("bk/doc_backup_d_abcdef_11111111.docx" : String) ≠
      "bk/doc_backup_d_abcdef_22222222.docx" := by
  have h1 : create_backup (fun _ => "abcdef0") (fun s => s) "/d/doc.docx" "doc" "d" ".docx"
      "bk" "S1" (fun _ => "11111111zz") (fun _ => true) (fun _ => false) [] =
      .success "bk/doc_backup_d_abcdef_11111111.docx"
        [("bk/doc_backup_d_abcdef_11111111.docx", "S1")] := by decide
  have h2 : create_backup (fun _ => "abcdef0") (fun s => s) "/d/doc.docx" "doc" "d" ".docx"
      "bk" "S2" (fun _ => "22222222zz") (fun _ => true) (fun _ => false) [] =
      .success "bk/doc_backup_d_abcdef_22222222.docx"
        [("bk/doc_backup_d_abcdef_22222222.docx", "S2")] := by decide
  obtain ⟨u1, u2, -, -, -, hp1, hp2, hne⟩ := backup_name_traceability
    (fun _ => "abcdef0") (fun s => s) "/d/doc.docx" "doc" "d" ".docx" "bk" "S1" "S2"
    (fun _ => "11111111zz") (fun _ => "22222222zz") (fun _ => true) (fun _ => true)
    (fun _ => false) (fun _ => false) [] [] h1 h2
    (fun _ => (by decide : 8 ≤ ("11111111zz" : String).length))
    (fun _ => (by decide : 8 ≤ ("22222222zz" : String).length)) (by decide)
  have hq1 : ("bk/doc_backup_d_abcdef_11111111.docx" : String) =
      joinPath "bk" ("doc" ++ "_backup_" ++ "d" ++ "_" ++
        fingerprint (fun _ => "abcdef0") (fun s => s) "/d/doc.docx" ++ "_" ++
        "11111111" ++ ".docx") := by decide
  have hq2 : ("bk/doc_backup_d_abcdef_22222222.docx" : String) =
      joinPath "bk" ("doc" ++ "_backup_" ++ "d" ++ "_" ++
        fingerprint (fun _ => "abcdef0") (fun s => s) "/d/doc.docx" ++ "_" ++
        "22222222" ++ ".docx") := by decide
  have e1 : u1 = "11111111" :=
    backupName_inj_uid (joinPath_inj (hp1.symm.trans hq1))
  have e2 : u2 = "22222222" :=
    backupName_inj_uid (joinPath_inj (hp2.symm.trans hq2))
  exact hne (by rw [e1, e2]; decide)

/-- Witness for C8: a document with one paragraph `"Hi"` and a 1×1 table
whose cell holds the paragraph `"2024"`; search `"z"` is absent. -/
theorem replace_absent_noop_witness :
    (['z'] : List Char) ≠ [] ∧
    findFrom (docText ⟨[[['H','i']]], [DTable.mk [[([[['2','0','2','4']]], [])]]]⟩)
      ['z'] 0 = none ∧
    replaceTextDoc ⟨[[['H','i']]], [DTable.mk [[([[['2','0','2','4']]], [])]]]⟩ ['z'] ['X'] =
      some (⟨[[['H','i']]], [DTable.mk [[([[['2','0','2','4']]], [])]]]⟩, 0) :=
  ⟨by decide, rfl,
    replace_absent_noop ⟨[[['H','i']]], [DTable.mk [[([[['2','0','2','4']]], [])]]]⟩
      ['z'] ['X'] (by decide) rfl⟩

end DocxBatch
